import Mathlib

/-!
Verification of the `facet` crate (rust-shed): the error surface
(`FactoryError`, `AsyncFactoryError`) is embedded directly from
`src/shed/facet/src/lib.rs`; the build engine (dependency resolution,
topological build sessions) is generated by the `#[facet::factory]`
proc macros, whose implementation is not part of this crate's source,
so it is modelled from the specification.
-/

/-- The opaque underlying cause of a facet build failure.  Models
`anyhow::Error`: an arbitrarily-typed, opaque error value; we carry a
message string so that values can be compared in concrete runs. -/
structure AnyhowError where
  msg : String
deriving DecidableEq

/-- An error during construction by a facet factory, embedded from the
`FactoryError` enum in `lib.rs`.  It has exactly one variant:
`FacetBuildFailed` with the static name of the facet that failed and the
underlying error. -/
inductive FactoryError where
  | FacetBuildFailed (name : String) (source : AnyhowError)
deriving DecidableEq

/-- A single-quote character, written via its code point. -/
def squo : String := ⟨[Char.ofNat 39]⟩

/-- The `Display` rendering of a `FactoryError`, embedded from the
`thiserror` attribute in `lib.rs`: the format string is
`failed to build` followed by the facet name wrapped in single quotes. -/
def FactoryError.display : FactoryError → String
  | .FacetBuildFailed name _ => "failed to build " ++ squo ++ name ++ squo

/-- Positional read of an optional slot in a list-backed store; `none`
when the index is out of range. -/
def slotGet {α : Type} : List (Option α) → Nat → Option α
  | [], _ => none
  | x :: _, 0 => x
  | _ :: xs, n + 1 => slotGet xs n

/-- Positional write of an optional slot in a list-backed store; a
no-op when the index is out of range. -/
def slotSet {α : Type} : List (Option α) → Nat → Option α → List (Option α)
  | [], _, _ => []
  | _ :: xs, 0, v => v :: xs
  | x :: xs, n + 1, v => x :: slotSet xs n v

/-- The heap of shared failure slots.  A Rust
`Arc<Mutex<Option<FactoryError>>>` is a shared pointer to one mutable
optional slot; the heap holds the slots, and each `AsyncFactoryError`
holds the index of its slot. -/
def ErrorHeap : Type := List (Option FactoryError)

/-- Read a slot of the error heap. -/
def ErrorHeap.read (h : ErrorHeap) (i : Nat) : Option FactoryError := slotGet h i

/-- Clonable wrapper for `FactoryError` in async builders, embedded from
`lib.rs`: the struct holds one field, `error`, a shared pointer to a
mutex-guarded optional `FactoryError`, modelled as the index of the
shared slot in the `ErrorHeap`. -/
structure AsyncFactoryError where
  error : Nat
deriving DecidableEq

/-- The derived `Clone` on `AsyncFactoryError` clones the `Arc`, i.e.
the clone points at the same underlying slot. -/
def AsyncFactoryError.clone (e : AsyncFactoryError) : AsyncFactoryError := e

/-- Embeds `impl From<FactoryError> for AsyncFactoryError`: allocate a
fresh shared slot holding `Some(err)` and return the wrapper pointing at
it, together with the extended heap. -/
def AsyncFactoryError.fromFactoryError (h : ErrorHeap) (err : FactoryError) :
    ErrorHeap × AsyncFactoryError :=
  (List.append h [some err], ⟨h.length⟩)

/-- Embeds `AsyncFactoryError::factory_error`: lock the slot and `take`
its contents, expecting it to still be present.  The first component is
`some err` on a successful take and `none` when the slot was already
empty, which in the Rust code is the `expect` panic
(`factory error already taken`). -/
def AsyncFactoryError.factory_error (h : ErrorHeap) (e : AsyncFactoryError) :
    Option FactoryError × ErrorHeap :=
  match h.read e.error with
  | some err => (some err, slotSet h e.error none)
  | none => (none, h)

/-- Modelled from the spec: the Unit Descriptor of section 4.1, the
per-facet metadata consumed by the build engine that the
`#[facet::factory]` macro generates (the macro implementation is not in
this crate's source).  A unit has a stable name, the list of other
units it depends on (by index into the factory), and a construction
function from the dependency handles to either a value or a failure.
External parameters are captured inside the construction function. -/
structure UnitDesc (V : Type) where
  name : String
  deps : List Nat
  construct : List V → Except AnyhowError V

/-- The dependency list of unit `i` of factory `f` (empty for an
unknown index). -/
def depsOf {V : Type} (f : List (UnitDesc V)) (i : Nat) : List Nat :=
  match f[i]? with
  | some u => u.deps
  | none => []

/-- Transitive dependency: `Reaches f i j` holds when `j` is reachable
from `i` along one or more declared dependency edges. -/
inductive Reaches {V : Type} (f : List (UnitDesc V)) : Nat → Nat → Prop
  | single {i j : Nat} : j ∈ depsOf f i → Reaches f i j
  | trans {i j k : Nat} : j ∈ depsOf f i → Reaches f j k → Reaches f i k

/-- Insert each element of `xs` into `acc` unless already present. -/
def addNew (xs acc : List Nat) : List Nat :=
  xs.foldr (fun j a => if j ∈ a then a else j :: a) acc

/-- Modelled from the spec: one step of the mark-as-needed closure of
section 4.4 (`AsyncBuilderFor::need` in `lib.rs` is only a trait
declaration): add every declared dependency of a marked unit to the
marked set. -/
def neededStep {V : Type} (f : List (UnitDesc V)) (s : List Nat) : List Nat :=
  addNew (s.flatMap (depsOf f)) s

/-- Iterate the mark-as-needed step. -/
def closureN {V : Type} (f : List (UnitDesc V)) : Nat → List Nat → List Nat
  | 0, s => s
  | n + 1, s => closureN f n (neededStep f s)

/-- Modelled from the spec: the needed-set of a build request, the
transitive closure of the container's directly required units under
declared dependency edges (section 4.2). -/
def neededSet {V : Type} (f : List (UnitDesc V)) (roots : List Nat) : List Nat :=
  closureN f (f.length + 1) roots

/-- A unit is ready to be appended to the plan when it is not already
planned and all of its declared dependencies are planned. -/
def ready {V : Type} (f : List (UnitDesc V)) (plan : List Nat) (i : Nat) : Bool :=
  decide (i ∉ plan) && (depsOf f i).all (fun j => decide (j ∈ plan))

/-- Modelled from the spec: the topological ordering pass of the
Dependency Graph Resolver (section 4.2): repeatedly append some needed
unit whose dependencies are all already planned. -/
def topoLoop {V : Type} (f : List (UnitDesc V)) (nd : List Nat) :
    Nat → List Nat → List Nat
  | 0, plan => plan
  | fuel + 1, plan =>
    match nd.find? (ready f plan) with
    | none => plan
    | some i => topoLoop f nd fuel (plan ++ [i])

/-- Declaration-time validation (section 4.1): every root and every
declared dependency must name a unit the factory knows how to build. -/
def validGraph {V : Type} (f : List (UnitDesc V)) (roots : List Nat) : Bool :=
  roots.all (fun r => decide (r < f.length)) &&
    f.all (fun u => u.deps.all (fun j => decide (j < f.length)))

/-- Modelled from the spec: factory/container registration (sections
4.2 and 7): validate the declared names, compute the needed-set, and
topologically order it; registration fails (returns `none`, the
compile-time error) when the needed units cannot all be planned, in
particular when a cycle is reachable. -/
def topoPlan {V : Type} (f : List (UnitDesc V)) (roots : List Nat) : List Nat :=
  topoLoop f (neededSet f roots) (neededSet f roots).length []

def register {V : Type} (f : List (UnitDesc V)) (roots : List Nat) : Option (List Nat) :=
  if validGraph f roots then
    if (neededSet f roots).all (fun i => decide (i ∈ topoPlan f roots)) then
      some (topoPlan f roots)
    else none
  else none

/-- A plan is well formed relative to a set `built` of already
available units when each unit of the plan has all of its declared
dependencies among `built` or among the earlier plan entries. -/
def PlanOk {V : Type} (f : List (UnitDesc V)) : List Nat → List Nat → Prop
  | _, [] => True
  | built, i :: rest => (∀ j ∈ depsOf f i, j ∈ built) ∧ PlanOk f (i :: built) rest

/-- A plan is a topological order: no duplicates, and every dependency
of a planned unit is planned strictly earlier. -/
def TopoOk {V : Type} (f : List (UnitDesc V)) (p : List Nat) : Prop :=
  p.Nodup ∧ ∀ i ∈ p, ∀ j ∈ depsOf f i, j ∈ p ∧ p.indexOf j < p.indexOf i

/-- The invariant maintained by the topological ordering pass. -/
def PlanInv {V : Type} (f : List (UnitDesc V)) (nd plan : List Nat) : Prop :=
  TopoOk f plan ∧ PlanOk f [] plan ∧ ∀ i ∈ plan, i ∈ nd

/-- Look up the already-built dependency handles in the session cache. -/
def getDeps {V : Type} (cache : List (Option V)) : List Nat → Option (List V)
  | [] => some []
  | j :: rest =>
    match slotGet cache j, getDeps cache rest with
    | some v, some vs => some (v :: vs)
    | _, _ => none

/-- Outcome of one build session: success with the final cache and the
invocation trace, a named failure (fail-fast) with the trace so far, or
a stuck session, which cannot happen for a registered plan. -/
inductive BuildOutcome (V : Type) where
  | ok (cache : List (Option V)) (trace : List Nat)
  | failed (err : FactoryError) (trace : List Nat)
  | stuck (trace : List Nat)
deriving DecidableEq

/-- The invocation trace of an outcome. -/
def outTrace {V : Type} : BuildOutcome V → List Nat
  | .ok _ t => t
  | .failed _ t => t
  | .stuck t => t

/-- Modelled from the spec: the synchronous Build Session of section
4.3 (the generated `Builder::build` implementation is not in this
crate's source): process units strictly in plan order, look up the
already-built dependency handles, invoke the construction function,
cache the produced handle, and stop at the first failure, wrapping it
with the failing unit's name.  The trace records each invocation of a
construction function, in order. -/
def runPlan {V : Type} (f : List (UnitDesc V)) :
    List Nat → List (Option V) → List Nat → BuildOutcome V
  | [], cache, trace => .ok cache trace
  | i :: rest, cache, trace =>
    match f[i]? with
    | none => .stuck trace
    | some u =>
      match getDeps cache u.deps with
      | none => .stuck trace
      | some vs =>
        match u.construct vs with
        | .error e => .failed (.FacetBuildFailed u.name e) (trace ++ [i])
        | .ok v => runPlan f rest (slotSet cache i (some v)) (trace ++ [i])

/-- The empty session cache: one empty slot per unit of the factory. -/
def initCache {V : Type} (f : List (UnitDesc V)) : List (Option V) :=
  List.replicate f.length none

/-- Modelled from the spec: the `build` method generated for a factory
always returns the `Result<Container, FactoryError>` shape (section
4.5); the outer `Option` is `none` exactly when the session got stuck,
which is proved impossible for registered plans. -/
def buildResult {V : Type} (f : List (UnitDesc V)) (plan : List Nat) :
    Option (Except FactoryError (List (Option V) × List Nat)) :=
  match runPlan f plan (initCache f) [] with
  | .ok c t => some (.ok (c, t))
  | .failed e _ => some (.error e)
  | .stuck _ => none

/-- Register a factory/container pairing and, if registration
succeeds, run the build session; `none` models the compile-time
rejection, under which no construction function can ever run. -/
def tryBuild {V : Type} (f : List (UnitDesc V)) (roots : List Nat) :
    Option (BuildOutcome V) :=
  match register f roots with
  | some plan => some (runPlan f plan (initCache f) [])
  | none => none

/-- Example factory with three units: unit 0 and unit 1 have no
dependencies and unit 2 depends on both. -/
def fABC : List (UnitDesc Nat) :=
  [⟨"b", [], fun _ => Except.ok 1⟩,
   ⟨"c", [], fun _ => Except.ok 2⟩,
   ⟨"a", [0, 1], fun vs => Except.ok (vs.foldr (fun x y => x + y) 0)⟩]

/-- Example factory with a chain: `low` has no dependencies, `mid`
depends on `low`, `high` depends on `mid`. -/
def lmhF : List (UnitDesc Nat) :=
  [⟨"low", [], fun _ => Except.ok 1⟩,
   ⟨"mid", [0], fun vs => Except.ok (vs.headD 0 + 1)⟩,
   ⟨"high", [1], fun vs => Except.ok (vs.headD 0 + 10)⟩]

/-- Example factory with a two-unit dependency cycle. -/
def cycF : List (UnitDesc Nat) :=
  [⟨"x", [1], fun _ => Except.ok 0⟩,
   ⟨"y", [0], fun _ => Except.ok 0⟩]

/-- Example factory where the dependent unit fails to build. -/
def failF : List (UnitDesc Nat) :=
  [⟨"good", [], fun _ => Except.ok 1⟩,
   ⟨"bad", [0], fun _ => Except.error ⟨"boom"⟩⟩]

theorem length_slotSet {α : Type} (l : List (Option α)) (i : Nat) (v : Option α) :
    (slotSet l i v).length = l.length := by
  induction l generalizing i with
  | nil => rfl
  | cons x xs ih =>
    cases i with
    | zero => rfl
    | succ n => simp [slotSet, ih]

theorem slotGet_slotSet_self {α : Type} (l : List (Option α)) (i : Nat) (v : Option α)
    (h : i < l.length) : slotGet (slotSet l i v) i = v := by
  induction l generalizing i with
  | nil => simp at h
  | cons x xs ih =>
    cases i with
    | zero => rfl
    | succ n =>
      simp only [slotSet, slotGet]
      exact ih n (by simpa using h)

theorem slotGet_slotSet_ne {α : Type} (l : List (Option α)) (i j : Nat) (v : Option α)
    (h : j ≠ i) : slotGet (slotSet l i v) j = slotGet l j := by
  induction l generalizing i j with
  | nil => rfl
  | cons x xs ih =>
    cases i with
    | zero =>
      cases j with
      | zero => exact absurd rfl h
      | succ m => rfl
    | succ n =>
      cases j with
      | zero => rfl
      | succ m =>
        simp only [slotSet, slotGet]
        exact ih n m (fun hc => h (by simp [hc]))

theorem slotGet_isSome_lt {α : Type} (l : List (Option α)) (i : Nat)
    (h : (slotGet l i).isSome) : i < l.length := by
  induction l generalizing i with
  | nil => simp [slotGet] at h
  | cons x xs ih =>
    cases i with
    | zero => simp
    | succ n =>
      simp only [slotGet] at h
      have := ih n h
      simpa using Nat.succ_lt_succ this

theorem Reaches.snoc {V : Type} {f : List (UnitDesc V)} {i j k : Nat}
    (h : Reaches f i j) (hk : k ∈ depsOf f j) : Reaches f i k := by
  induction h with
  | single hd => exact Reaches.trans hd (Reaches.single hk)
  | trans hd _ ih => exact Reaches.trans hd (ih hk)

theorem addNew_cons {y : Nat} {ys acc : List Nat} :
    addNew (y :: ys) acc =
      if y ∈ addNew ys acc then addNew ys acc else y :: addNew ys acc := rfl

theorem mem_addNew {x : Nat} {xs acc : List Nat} :
    x ∈ addNew xs acc ↔ x ∈ xs ∨ x ∈ acc := by
  induction xs with
  | nil => simp [addNew]
  | cons y ys ih =>
    rw [addNew_cons]
    by_cases hy : y ∈ addNew ys acc
    · rw [if_pos hy, ih]
      constructor
      · rintro (h | h)
        · exact Or.inl (List.mem_cons_of_mem y h)
        · exact Or.inr h
      · rintro (h | h)
        · rcases List.mem_cons.mp h with rfl | h
          · exact ih.mp hy
          · exact Or.inl h
        · exact Or.inr h
    · rw [if_neg hy]
      constructor
      · intro h
        rcases List.mem_cons.mp h with rfl | h
        · exact Or.inl (List.mem_cons_self x ys)
        · rcases ih.mp h with h | h
          · exact Or.inl (List.mem_cons_of_mem y h)
          · exact Or.inr h
      · rintro (h | h)
        · rcases List.mem_cons.mp h with rfl | h
          · exact List.mem_cons_self x (addNew ys acc)
          · exact List.mem_cons_of_mem y (ih.mpr (Or.inl h))
        · exact List.mem_cons_of_mem y (ih.mpr (Or.inr h))

theorem mem_neededStep {V : Type} {f : List (UnitDesc V)} {x : Nat} {s : List Nat} :
    x ∈ neededStep f s ↔ (∃ i ∈ s, x ∈ depsOf f i) ∨ x ∈ s := by
  simp [neededStep, mem_addNew, List.mem_flatMap]

theorem mem_closureN_of_mem {V : Type} {f : List (UnitDesc V)} {x : Nat} {s : List Nat}
    (n : Nat) (h : x ∈ s) : x ∈ closureN f n s := by
  induction n generalizing s with
  | zero => exact h
  | succ m ih => exact ih (mem_neededStep.mpr (Or.inr h))

theorem closureN_invariant {V : Type} {f : List (UnitDesc V)} (P : Nat → Prop)
    (hstep : ∀ i, P i → ∀ j ∈ depsOf f i, P j) :
    ∀ (n : Nat) (s : List Nat), (∀ x ∈ s, P x) → ∀ x ∈ closureN f n s, P x := by
  intro n
  induction n with
  | zero => intro s hs x hx; exact hs x hx
  | succ m ih =>
    intro s hs x hx
    refine ih (neededStep f s) ?_ x hx
    intro y hy
    rcases mem_neededStep.mp hy with ⟨i, hi, hyi⟩ | hy
    · exact hstep i (hs i hi) y hyi
    · exact hs y hy

theorem planOk_append {V : Type} {f : List (UnitDesc V)} {x : Nat} :
    ∀ {p b : List Nat}, PlanOk f b p → (∀ j ∈ depsOf f x, j ∈ b ∨ j ∈ p) →
      PlanOk f b (p ++ [x]) := by
  intro p
  induction p with
  | nil =>
    intro b _ hx
    exact ⟨fun j hj => (hx j hj).resolve_right (by simp), trivial⟩
  | cons i rest ih =>
    intro b hp hx
    refine ⟨hp.1, ih hp.2 ?_⟩
    intro j hj
    rcases hx j hj with h | h
    · exact Or.inl (List.mem_cons_of_mem i h)
    · rcases List.mem_cons.mp h with rfl | h
      · exact Or.inl (List.mem_cons_self j b)
      · exact Or.inr h

theorem planOk_append_elim {V : Type} {f : List (UnitDesc V)} {q : List Nat} :
    ∀ {p b : List Nat}, PlanOk f b (p ++ q) →
      PlanOk f b p ∧ PlanOk f (p.reverse ++ b) q := by
  intro p
  induction p with
  | nil => intro b h; exact ⟨trivial, by simpa using h⟩
  | cons i rest ih =>
    intro b h
    obtain ⟨h1, h2⟩ := h
    obtain ⟨h3, h4⟩ := ih h2
    refine ⟨⟨h1, h3⟩, ?_⟩
    simpa [List.append_assoc] using h4

theorem topoOk_append {V : Type} {f : List (UnitDesc V)} {p : List Nat} {x : Nat}
    (ht : TopoOk f p) (hx : x ∉ p) (hd : ∀ j ∈ depsOf f x, j ∈ p) :
    TopoOk f (p ++ [x]) := by
  constructor
  · rw [List.nodup_append]
    refine ⟨ht.1, List.nodup_singleton x, ?_⟩
    intro a ha hax
    rcases List.mem_singleton.mp hax with rfl
    exact hx ha
  · intro i hi j hj
    rcases List.mem_append.mp hi with hip | hix
    · obtain ⟨hjp, hlt⟩ := ht.2 i hip j hj
      refine ⟨List.mem_append_left _ hjp, ?_⟩
      rw [List.indexOf_append_of_mem hjp, List.indexOf_append_of_mem hip]
      exact hlt
    · rcases List.mem_singleton.mp hix with rfl
      have hjp := hd j hj
      refine ⟨List.mem_append_left _ hjp, ?_⟩
      rw [List.indexOf_append_of_mem hjp, List.indexOf_append_of_not_mem hx,
        List.indexOf_cons_self]
      have := List.indexOf_lt_length.mpr hjp
      omega

theorem reaches_rank {V : Type} {f : List (UnitDesc V)} {p : List Nat}
    (ht : TopoOk f p) {i k : Nat} (h : Reaches f i k) :
    i ∈ p → k ∈ p ∧ p.indexOf k < p.indexOf i := by
  induction h with
  | single hd => intro hi; exact ht.2 _ hi _ hd
  | trans hd _ ih =>
    intro hi
    obtain ⟨hjp, hlt⟩ := ht.2 _ hi _ hd
    obtain ⟨hkp, hlt2⟩ := ih hjp
    exact ⟨hkp, lt_trans hlt2 hlt⟩

theorem topoLoop_inv {V : Type} {f : List (UnitDesc V)} {nd : List Nat} :
    ∀ (fuel : Nat) (plan : List Nat), PlanInv f nd plan →
      PlanInv f nd (topoLoop f nd fuel plan) := by
  intro fuel
  induction fuel with
  | zero => intro plan h; exact h
  | succ n ih =>
    intro plan h
    rw [topoLoop]
    cases hf : nd.find? (ready f plan) with
    | none => exact h
    | some i =>
      have hre : ready f plan i = true := List.find?_some hf
      rw [ready, Bool.and_eq_true] at hre
      have hnot : i ∉ plan := by
        have := hre.1
        simpa using this
      have hdeps : ∀ j ∈ depsOf f i, j ∈ plan := by
        intro j hj
        have := List.all_eq_true.mp hre.2 j hj
        simpa using this
      have hnd : i ∈ nd := List.mem_of_find?_eq_some hf
      refine ih (plan ++ [i]) ?_
      refine ⟨topoOk_append h.1 hnot hdeps, planOk_append h.2.1 ?_, ?_⟩
      · intro j hj
        exact Or.inr (hdeps j hj)
      · intro x hx
        rcases List.mem_append.mp hx with hx | hx
        · exact h.2.2 x hx
        · rcases List.mem_singleton.mp hx with rfl
          exact hnd

theorem validGraph_roots {V : Type} {f : List (UnitDesc V)} {roots : List Nat}
    (h : validGraph f roots = true) : ∀ r ∈ roots, r < f.length := by
  rw [validGraph, Bool.and_eq_true] at h
  intro r hr
  have := List.all_eq_true.mp h.1 r hr
  simpa using this

theorem validGraph_deps {V : Type} {f : List (UnitDesc V)} {roots : List Nat}
    (h : validGraph f roots = true) : ∀ i : Nat, ∀ j ∈ depsOf f i, j < f.length := by
  rw [validGraph, Bool.and_eq_true] at h
  intro i j hj
  rw [depsOf] at hj
  cases hu : f[i]? with
  | none => rw [hu] at hj; cases hj
  | some u =>
    rw [hu] at hj
    have humem : u ∈ f := by
      have := List.getElem?_eq_some.mp hu
      obtain ⟨hlt, hget⟩ := this
      exact hget ▸ List.getElem_mem hlt
    have := List.all_eq_true.mp h.2 u humem
    have := List.all_eq_true.mp this j hj
    simpa using this

theorem register_some {V : Type} {f : List (UnitDesc V)} {roots plan : List Nat}
    (h : register f roots = some plan) :
    TopoOk f plan ∧ PlanOk f [] plan ∧
      (∀ i ∈ plan, i ∈ neededSet f roots ∧ i < f.length) ∧
      (∀ i ∈ neededSet f roots, i ∈ plan) ∧
      (∀ r ∈ roots, r ∈ plan) ∧ validGraph f roots = true := by
  rw [register] at h
  split at h
  case isFalse => cases h
  case isTrue hval =>
    split at h
    case isFalse => cases h
    case isTrue hall =>
      injection h with h
      subst h
      have hinv : PlanInv f (neededSet f roots) (topoPlan f roots) := by
        refine topoLoop_inv _ [] ?_
        refine ⟨⟨List.nodup_nil, ?_⟩, trivial, ?_⟩
        · intro i hi; cases hi
        · intro i hi; cases hi
      have hsub : ∀ i ∈ neededSet f roots, i ∈ topoPlan f roots := by
        intro i hi
        have := List.all_eq_true.mp hall i hi
        simpa using this
      have hltall : ∀ i ∈ neededSet f roots, i < f.length := by
        refine closureN_invariant (fun i => i < f.length) ?_ _ _ ?_
        · intro i _ j hj
          exact validGraph_deps hval i j hj
        · exact validGraph_roots hval
      refine ⟨hinv.1, hinv.2.1, ?_, hsub, ?_, hval⟩
      · intro i hi
        exact ⟨hinv.2.2 i hi, hltall i (hinv.2.2 i hi)⟩
      · intro r hr
        exact hsub r (mem_closureN_of_mem _ hr)

theorem getDeps_isSome {V : Type} (cache : List (Option V)) :
    ∀ deps : List Nat, (∀ j ∈ deps, (slotGet cache j).isSome) →
      ∃ vs, getDeps cache deps = some vs := by
  intro deps
  induction deps with
  | nil => intro _; exact ⟨[], rfl⟩
  | cons j rest ih =>
    intro h
    obtain ⟨v, hv⟩ := Option.isSome_iff_exists.mp (h j (List.mem_cons_self j rest))
    obtain ⟨vs, hvs⟩ := ih (fun x hx => h x (List.mem_cons_of_mem j hx))
    exact ⟨v :: vs, by simp [getDeps, hv, hvs]⟩

theorem runPlan_ok_trace {V : Type} (f : List (UnitDesc V)) :
    ∀ (plan : List Nat) (cache : List (Option V)) (trace : List Nat)
      (c : List (Option V)) (t : List Nat),
      runPlan f plan cache trace = .ok c t → t = trace ++ plan := by
  intro plan
  induction plan with
  | nil =>
    intro cache trace c t h
    rw [runPlan] at h
    injection h with h1 h2
    subst h2
    simp
  | cons i rest ih =>
    intro cache trace c t h
    rw [runPlan] at h
    cases hu : f[i]? with
    | none => rw [hu] at h; simp at h
    | some u =>
      rw [hu] at h
      simp only at h
      cases hg : getDeps cache u.deps with
      | none => rw [hg] at h; simp at h
      | some vs =>
        rw [hg] at h
        simp only at h
        cases hc : u.construct vs with
        | error e => rw [hc] at h; simp at h
        | ok v =>
          rw [hc] at h
          simp only at h
          have := ih _ _ _ _ h
          simpa [List.append_assoc] using this

theorem outTrace_runPlan {V : Type} (f : List (UnitDesc V)) :
    ∀ (plan : List Nat) (cache : List (Option V)) (trace : List Nat),
      ∀ i ∈ outTrace (runPlan f plan cache trace), i ∈ trace ∨ i ∈ plan := by
  intro plan
  induction plan with
  | nil => intro cache trace i hi; exact Or.inl (by simpa [runPlan, outTrace] using hi)
  | cons j rest ih =>
    intro cache trace i hi
    rw [runPlan] at hi
    cases hu : f[j]? with
    | none => rw [hu] at hi; simp only [outTrace] at hi; exact Or.inl hi
    | some u =>
      rw [hu] at hi
      simp only at hi
      cases hg : getDeps cache u.deps with
      | none => rw [hg] at hi; simp only [outTrace] at hi; exact Or.inl hi
      | some vs =>
        rw [hg] at hi
        simp only at hi
        cases hc : u.construct vs with
        | error e =>
          rw [hc] at hi
          simp only [outTrace] at hi
          rcases List.mem_append.mp hi with h | h
          · exact Or.inl h
          · rcases List.mem_singleton.mp h with rfl
            exact Or.inr (List.mem_cons_self i rest)
        | ok v =>
          rw [hc] at hi
          simp only at hi
          rcases ih _ _ i hi with h | h
          · rcases List.mem_append.mp h with h | h
            · exact Or.inl h
            · rcases List.mem_singleton.mp h with rfl
              exact Or.inr (List.mem_cons_self i rest)
          · exact Or.inr (List.mem_cons_of_mem j h)

theorem runPlan_append {V : Type} {f : List (UnitDesc V)} :
    ∀ (pre rest built : List Nat) (cache : List (Option V)) (trace : List Nat),
      PlanOk f built pre →
      cache.length = f.length →
      (∀ j ∈ built, (slotGet cache j).isSome) →
      (∀ j ∈ pre, j < f.length) →
      (∀ j ∈ pre, ∀ (h : j < f.length), ∀ vs,
        ∃ v, (f.get ⟨j, h⟩).construct vs = Except.ok v) →
      ∃ cache2,
        runPlan f (pre ++ rest) cache trace = runPlan f rest cache2 (trace ++ pre) ∧
        cache2.length = f.length ∧
        (∀ j, (j ∈ built ∨ j ∈ pre) → (slotGet cache2 j).isSome) := by
  intro pre
  induction pre with
  | nil =>
    intro rest built cache trace _ hlen hcov _ _
    refine ⟨cache, by simp, hlen, ?_⟩
    intro j hj
    exact hcov j (hj.resolve_right (by simp))
  | cons j pre' ih =>
    intro rest built cache trace hplan hlen hcov hvalid hinf
    have hjlt : j < f.length := hvalid j (List.mem_cons_self j pre')
    have hu : f[j]? = some (f.get ⟨j, hjlt⟩) := by
      have := List.getElem?_eq_getElem hjlt
      rw [List.get_eq_getElem]
      exact this
    have hdeps_eq : depsOf f j = (f.get ⟨j, hjlt⟩).deps := by
      rw [depsOf, hu]
    have hcovdeps : ∀ x ∈ (f.get ⟨j, hjlt⟩).deps, (slotGet cache x).isSome := by
      intro x hx
      refine hcov x (hplan.1 x ?_)
      rw [hdeps_eq]
      exact hx
    obtain ⟨vs, hgd⟩ := getDeps_isSome cache _ hcovdeps
    obtain ⟨v, hv⟩ := hinf j (List.mem_cons_self j pre') hjlt vs
    have step : runPlan f ((j :: pre') ++ rest) cache trace
        = runPlan f (pre' ++ rest) (slotSet cache j (some v)) (trace ++ [j]) := by
      rw [List.cons_append, runPlan]
      rw [hu]
      simp only
      rw [hgd]
      simp only
      rw [hv]
    have hcov2 : ∀ x ∈ j :: built, (slotGet (slotSet cache j (some v)) x).isSome := by
      intro x hx
      rcases List.mem_cons.mp hx with rfl | hx
      · rw [slotGet_slotSet_self cache x (some v) (by rw [hlen]; exact hjlt)]
        rfl
      · by_cases hxj : x = j
        · subst hxj
          rw [slotGet_slotSet_self cache x (some v) (by rw [hlen]; exact hjlt)]
          rfl
        · rw [slotGet_slotSet_ne cache j x (some v) hxj]
          exact hcov x hx
    obtain ⟨cache2, heq, hlen2, hfin⟩ :=
      ih rest (j :: built) (slotSet cache j (some v)) (trace ++ [j]) hplan.2
        (by rw [length_slotSet]; exact hlen) hcov2
        (fun x hx => hvalid x (List.mem_cons_of_mem j hx))
        (fun x hx => hinf x (List.mem_cons_of_mem j hx))
    refine ⟨cache2, ?_, hlen2, ?_⟩
    · rw [step, heq]
      simp [List.append_assoc]
    · intro x hx
      rcases hx with hx | hx
      · exact hfin x (Or.inl (List.mem_cons_of_mem j hx))
      · rcases List.mem_cons.mp hx with rfl | hx
        · exact hfin x (Or.inl (List.mem_cons_self x built))
        · exact hfin x (Or.inr hx)

theorem slotGet_append_self {α : Type} (l : List (Option α)) (x : Option α) :
    slotGet (List.append l [x]) l.length = x := by
  induction l with
  | nil => rfl
  | cons y ys ih => simpa [slotGet] using ih

/-- Claim C4: the build-failure result type exposes exactly one failure kind,
a named facet build failure carrying the failing facet's static name
and an opaque underlying cause; in particular there is no separate
cycle-failure kind. -/
theorem factory_error_single_kind (e : FactoryError) :
    ∃ (name : String) (cause : AnyhowError),
      e = FactoryError.FacetBuildFailed name cause := by
  cases e with
  | FacetBuildFailed n s => exact ⟨n, s, rfl⟩

/-- Claim C10: the displayed message of `FacetBuildFailed` with name `n` is
exactly the string `failed to build` followed by `n` wrapped in single
quotes. -/
theorem factory_error_message (n : String) (s : AnyhowError) :
    (FactoryError.FacetBuildFailed n s).display =
      "failed to build " ++ squo ++ n ++ squo := rfl

/-- Claim C3: converting a `FactoryError` into an `AsyncFactoryError` via
`From` and then calling `factory_error` once returns exactly the
original error. -/
theorem from_then_read_identity (h : ErrorHeap) (err : FactoryError) :
    (AsyncFactoryError.factory_error (AsyncFactoryError.fromFactoryError h err).1
      (AsyncFactoryError.fromFactoryError h err).2).1 = some err := by
  have hread : ((AsyncFactoryError.fromFactoryError h err).1).read
      (AsyncFactoryError.fromFactoryError h err).2.error = some err := by
    show ErrorHeap.read (List.append h [some err]) h.length = some err
    rw [ErrorHeap.read]
    exact slotGet_append_self h (some err)
  rw [AsyncFactoryError.factory_error, hread]

theorem factory_error_eq_some (h : ErrorHeap) (e : AsyncFactoryError)
    (x : FactoryError) (hr : h.read e.error = some x) :
    AsyncFactoryError.factory_error h e = (some x, slotSet h e.error none) := by
  rw [AsyncFactoryError.factory_error, hr]

theorem factory_error_eq_none (h : ErrorHeap) (e : AsyncFactoryError)
    (hr : h.read e.error = none) :
    AsyncFactoryError.factory_error h e = (none, h) := by
  rw [AsyncFactoryError.factory_error, hr]

/-- Claim C2: the first call to `factory_error` on a freshly converted
`AsyncFactoryError` returns the stored `FactoryError`; a second call
through the value or any clone of it hits the empty slot and panics
(modelled as `none`); and the panic branch is unreachable whenever the
underlying slot has not yet been read. -/
theorem async_error_read_once (h : ErrorHeap) (err : FactoryError) :
    (AsyncFactoryError.factory_error (AsyncFactoryError.fromFactoryError h err).1
      (AsyncFactoryError.fromFactoryError h err).2).1 = some err ∧
    (AsyncFactoryError.factory_error
      (AsyncFactoryError.factory_error (AsyncFactoryError.fromFactoryError h err).1
        (AsyncFactoryError.fromFactoryError h err).2).2
      ((AsyncFactoryError.fromFactoryError h err).2.clone)).1 = none ∧
    (∀ (h3 : ErrorHeap) (e : AsyncFactoryError),
      (h3.read e.error).isSome →
        ((AsyncFactoryError.factory_error h3 e).1).isSome) := by
  have hread : ((AsyncFactoryError.fromFactoryError h err).1).read
      (AsyncFactoryError.fromFactoryError h err).2.error = some err := by
    show ErrorHeap.read (List.append h [some err]) h.length = some err
    rw [ErrorHeap.read]
    exact slotGet_append_self h (some err)
  have hinner := factory_error_eq_some _ _ _ hread
  refine ⟨by rw [hinner], ?_, ?_⟩
  · rw [hinner]
    have hread2 : ErrorHeap.read
        (slotSet (AsyncFactoryError.fromFactoryError h err).1
          (AsyncFactoryError.fromFactoryError h err).2.error none)
        ((AsyncFactoryError.fromFactoryError h err).2.clone).error = none := by
      show ErrorHeap.read (slotSet (List.append h [some err]) h.length none)
        h.length = none
      rw [ErrorHeap.read]
      exact slotGet_slotSet_self _ _ _ (by simp)
    show (AsyncFactoryError.factory_error
      (slotSet (AsyncFactoryError.fromFactoryError h err).1
        (AsyncFactoryError.fromFactoryError h err).2.error none)
      ((AsyncFactoryError.fromFactoryError h err).2.clone)).1 = none
    rw [factory_error_eq_none _ _ hread2]
  · intro h3 e hs
    obtain ⟨e2, he2⟩ := Option.isSome_iff_exists.mp hs
    rw [factory_error_eq_some h3 e e2 he2]
    rfl

theorem async_error_read_once_witness :
    (AsyncFactoryError.factory_error
      (AsyncFactoryError.fromFactoryError []
        (FactoryError.FacetBuildFailed "a" ⟨"boom"⟩)).1
      (AsyncFactoryError.fromFactoryError []
        (FactoryError.FacetBuildFailed "a" ⟨"boom"⟩)).2).1 =
      some (FactoryError.FacetBuildFailed "a" ⟨"boom"⟩) ∧
    (AsyncFactoryError.factory_error
      (AsyncFactoryError.factory_error
        (AsyncFactoryError.fromFactoryError []
          (FactoryError.FacetBuildFailed "a" ⟨"boom"⟩)).1
        (AsyncFactoryError.fromFactoryError []
          (FactoryError.FacetBuildFailed "a" ⟨"boom"⟩)).2).2
      ((AsyncFactoryError.fromFactoryError []
        (FactoryError.FacetBuildFailed "a" ⟨"boom"⟩)).2.clone)).1 = none ∧
    ((AsyncFactoryError.factory_error
      [some (FactoryError.FacetBuildFailed "a" ⟨"boom"⟩)] ⟨0⟩).1).isSome := by
  obtain ⟨h1, h2, h3⟩ :=
    async_error_read_once [] (FactoryError.FacetBuildFailed "a" ⟨"boom"⟩)
  exact ⟨h1, h2, h3 [some (FactoryError.FacetBuildFailed "a" ⟨"boom"⟩)] ⟨0⟩ rfl⟩

/-- Claim C9: all clones of an `AsyncFactoryError` share one underlying
slot; after `factory_error` the slot is empty for every clone, so a
subsequent call through any clone panics; the slot is filled at
conversion from `FactoryError` and `factory_error` never refills any
slot. -/
theorem shared_slot_write_once (h : ErrorHeap) (e : AsyncFactoryError) :
    AsyncFactoryError.clone e = e ∧
    (AsyncFactoryError.factory_error h e).2.read e.error = none ∧
    (∀ i : Nat, ((AsyncFactoryError.factory_error h e).2.read i).isSome →
      (h.read i).isSome) ∧
    (AsyncFactoryError.factory_error (AsyncFactoryError.factory_error h e).2
      (AsyncFactoryError.clone e)).1 = none ∧
    (∀ err : FactoryError,
      ((AsyncFactoryError.fromFactoryError h err).1).read
        (AsyncFactoryError.fromFactoryError h err).2.error = some err) := by
  have hempty : (AsyncFactoryError.factory_error h e).2.read e.error = none := by
    cases hr : h.read e.error with
    | none => rw [factory_error_eq_none h e hr]; exact hr
    | some e2 =>
      rw [factory_error_eq_some h e e2 hr]
      have hlt : e.error < h.length := by
        refine slotGet_isSome_lt h e.error ?_
        rw [ErrorHeap.read] at hr
        rw [hr]
        rfl
      show ErrorHeap.read (slotSet h e.error none) e.error = none
      rw [ErrorHeap.read]
      exact slotGet_slotSet_self h e.error none hlt
  refine ⟨rfl, hempty, ?_, ?_, ?_⟩
  · intro i hs
    cases hr : h.read e.error with
    | none =>
      rw [factory_error_eq_none h e hr] at hs
      exact hs
    | some e2 =>
      rw [factory_error_eq_some h e e2 hr] at hs
      have hlt : e.error < h.length := by
        refine slotGet_isSome_lt h e.error ?_
        rw [ErrorHeap.read] at hr
        rw [hr]
        rfl
      by_cases hie : i = e.error
      · exfalso
        rw [hie] at hs
        have : ErrorHeap.read
            ((some e2, slotSet h e.error none).2) e.error = none := by
          show ErrorHeap.read (slotSet h e.error none) e.error = none
          rw [ErrorHeap.read]
          exact slotGet_slotSet_self h e.error none hlt
        rw [this] at hs
        cases hs
      · have : ErrorHeap.read ((some e2, slotSet h e.error none).2) i
            = ErrorHeap.read h i := by
          show ErrorHeap.read (slotSet h e.error none) i = ErrorHeap.read h i
          rw [ErrorHeap.read, ErrorHeap.read]
          exact slotGet_slotSet_ne h e.error i none hie
        rw [this] at hs
        exact hs
  · rw [AsyncFactoryError.clone]
    have : ((AsyncFactoryError.factory_error h e).2).read e.error = none := hempty
    rw [factory_error_eq_none _ _ this]
  · intro err
    show ErrorHeap.read (List.append h [some err]) h.length = some err
    rw [ErrorHeap.read]
    exact slotGet_append_self h (some err)

theorem shared_slot_write_once_witness :
    AsyncFactoryError.clone ⟨0⟩ = (⟨0⟩ : AsyncFactoryError) ∧
    (AsyncFactoryError.factory_error
      [some (FactoryError.FacetBuildFailed "a" ⟨"x"⟩),
        some (FactoryError.FacetBuildFailed "b" ⟨"y"⟩)] ⟨0⟩).2.read 0 = none ∧
    (ErrorHeap.read
      [some (FactoryError.FacetBuildFailed "a" ⟨"x"⟩),
        some (FactoryError.FacetBuildFailed "b" ⟨"y"⟩)] 1).isSome := by
  obtain ⟨h1, h2, h3, _, _⟩ := shared_slot_write_once
    [some (FactoryError.FacetBuildFailed "a" ⟨"x"⟩),
      some (FactoryError.FacetBuildFailed "b" ⟨"y"⟩)] ⟨0⟩
  exact ⟨h1, h2, h3 1 rfl⟩

/-- Claim C1: for a registered (hence acyclic) factory graph, a successful
build of a container that needs unit `A`, where `A` transitively
depends on `B` and `C`, invokes the construction functions of `B` and
`C` before that of `A`, and invokes each of the three exactly once in
the session. -/
theorem build_order_and_once {V : Type} (f : List (UnitDesc V))
    (roots plan : List Nat) (cache : List (Option V)) (trace : List Nat)
    (A B C : Nat)
    (hreg : register f roots = some plan)
    (hrun : runPlan f plan (initCache f) [] = .ok cache trace)
    (hA : A ∈ roots) (hB : Reaches f A B) (hC : Reaches f A C) :
    A ∈ trace ∧ B ∈ trace ∧ C ∈ trace ∧
    trace.indexOf B < trace.indexOf A ∧ trace.indexOf C < trace.indexOf A ∧
    trace.count A = 1 ∧ trace.count B = 1 ∧ trace.count C = 1 := by
  obtain ⟨htopo, _, _, _, hroots, _⟩ := register_some hreg
  have htr : trace = plan := by
    simpa using runPlan_ok_trace f plan (initCache f) [] cache trace hrun
  subst htr
  have hAp : A ∈ trace := hroots A hA
  obtain ⟨hBp, hBlt⟩ := reaches_rank htopo hB hAp
  obtain ⟨hCp, hClt⟩ := reaches_rank htopo hC hAp
  exact ⟨hAp, hBp, hCp, hBlt, hClt,
    List.count_eq_one_of_mem htopo.1 hAp,
    List.count_eq_one_of_mem htopo.1 hBp,
    List.count_eq_one_of_mem htopo.1 hCp⟩

theorem build_order_and_once_witness :
    (0 ∈ ([0, 1, 2] : List Nat)) ∧
    ([0, 1, 2] : List Nat).indexOf 0 < ([0, 1, 2] : List Nat).indexOf 2 ∧
    ([0, 1, 2] : List Nat).count 2 = 1 := by
  obtain ⟨hA, hB, hC, h1, h2, h3, h4, h5⟩ :=
    build_order_and_once fABC [2] [0, 1, 2] [some 1, some 2, some 3] [0, 1, 2]
      2 0 1 rfl rfl (by decide)
      (Reaches.single (by decide)) (Reaches.single (by decide))
  exact ⟨hB, h1, h3⟩

/-- Claim C6: when a dependency cycle is reachable from a requested
container's required units, registration fails (the compile-time
error), and consequently no build session exists: no construction
function of the factory is ever executed. -/
theorem cycle_rejected {V : Type} (f : List (UnitDesc V)) (roots : List Nat)
    (r i : Nat) (hr : r ∈ roots) (hri : r = i ∨ Reaches f r i)
    (hcyc : Reaches f i i) :
    register f roots = none ∧ tryBuild f roots = (none : Option (BuildOutcome V)) := by
  have hreg : register f roots = none := by
    cases hplan : register f roots with
    | none => rfl
    | some plan =>
      exfalso
      obtain ⟨htopo, _, _, _, hroots, _⟩ := register_some hplan
      have hrp : r ∈ plan := hroots r hr
      have hip : i ∈ plan := by
        rcases hri with rfl | hreach
        · exact hrp
        · exact (reaches_rank htopo hreach hrp).1
      exact lt_irrefl _ (reaches_rank htopo hcyc hip).2
  refine ⟨hreg, ?_⟩
  rw [tryBuild, hreg]

theorem cycle_rejected_witness :
    register cycF [0] = none ∧ tryBuild cycF [0] = (none : Option (BuildOutcome Nat)) :=
  cycle_rejected cycF [0] 0 0 (by decide) (Or.inl rfl)
    (Reaches.trans (show 1 ∈ depsOf cycF 0 by decide)
      (Reaches.single (show 0 ∈ depsOf cycF 1 by decide)))

/-- Claim C5: the build operation always returns the success-or-named-failure
shape, and when every construction function of the factory is
infallible, every registered build returns the success variant. -/
theorem build_infallible_ok {V : Type} (f : List (UnitDesc V))
    (roots plan : List Nat)
    (hreg : register f roots = some plan)
    (hinf : ∀ u ∈ f, ∀ vs, ∃ v, u.construct vs = Except.ok v) :
    ∃ cache trace, buildResult f plan = some (Except.ok (cache, trace)) := by
  obtain ⟨_, hplanok, hmem, _, _, _⟩ := register_some hreg
  obtain ⟨cache2, heq, _, _⟩ := runPlan_append plan [] [] (initCache f) []
    hplanok (by simp [initCache]) (by intro j hj; cases hj)
    (fun j hj => (hmem j hj).2)
    (fun j hj h vs => hinf (f.get ⟨j, h⟩) (List.get_mem f j h) vs)
  have hrun : runPlan f plan (initCache f) [] = .ok cache2 plan := by
    have h1 := heq
    simp only [List.append_nil, List.nil_append] at h1
    rw [h1, runPlan]
  refine ⟨cache2, plan, ?_⟩
  unfold buildResult
  rw [hrun]

theorem build_infallible_ok_witness :
    ∃ cache trace, buildResult fABC [0, 1, 2] = some (Except.ok (cache, trace)) := by
  refine build_infallible_ok fABC [2] [0, 1, 2] rfl ?_
  intro u hu vs
  fin_cases hu
  · exact ⟨1, rfl⟩
  · exact ⟨2, rfl⟩
  · exact ⟨vs.foldr (fun x y => x + y) 0, rfl⟩

/-- Claim C7: when some unit's construction function fails, and it is the
first to fail in plan order, the overall build returns the named
failure carrying that unit's name and the original cause, the units
after it are never invoked, and no container value is produced. -/
theorem build_failure_named {V : Type} (f : List (UnitDesc V))
    (roots plan pre post : List Nat) (i : Nat) (c : AnyhowError)
    (hreg : register f roots = some plan)
    (hplan : plan = pre ++ i :: post)
    (hpre : ∀ j ∈ pre, ∀ (h : j < f.length), ∀ vs,
      ∃ v, (f.get ⟨j, h⟩).construct vs = Except.ok v)
    (hi : i < f.length)
    (hfail : ∀ vs, (f.get ⟨i, hi⟩).construct vs = Except.error c) :
    runPlan f plan (initCache f) [] =
      .failed (FactoryError.FacetBuildFailed (f.get ⟨i, hi⟩).name c) (pre ++ [i]) ∧
    buildResult f plan =
      some (Except.error (FactoryError.FacetBuildFailed (f.get ⟨i, hi⟩).name c)) := by
  obtain ⟨_, hplanok, hmem, _, _, _⟩ := register_some hreg
  subst hplan
  obtain ⟨hpok_pre, hpok_rest⟩ := planOk_append_elim (q := i :: post) hplanok
  obtain ⟨cache2, heq, hlen2, hcov2⟩ := runPlan_append pre (i :: post) [] (initCache f) []
    hpok_pre (by simp [initCache]) (by intro j hj; cases hj)
    (fun j hj => (hmem j (List.mem_append_left _ hj)).2)
    hpre
  have hu : f[i]? = some (f.get ⟨i, hi⟩) := by
    have := List.getElem?_eq_getElem hi
    rw [List.get_eq_getElem]
    exact this
  have hdeps_sub : ∀ x ∈ (f.get ⟨i, hi⟩).deps, (slotGet cache2 x).isSome := by
    intro x hx
    have hx2 : x ∈ depsOf f i := by
      rw [depsOf, hu]
      exact hx
    have hx3 : x ∈ pre.reverse ++ ([] : List Nat) := hpok_rest.1 x hx2
    have hx4 : x ∈ pre := by simpa using hx3
    exact hcov2 x (Or.inr hx4)
  obtain ⟨vs, hgd⟩ := getDeps_isSome cache2 _ hdeps_sub
  have hstep : runPlan f (i :: post) cache2 ([] ++ pre) =
      .failed (FactoryError.FacetBuildFailed (f.get ⟨i, hi⟩).name c)
        (([] ++ pre) ++ [i]) := by
    rw [runPlan, hu]
    simp only
    rw [hgd]
    simp only
    rw [hfail vs]
  constructor
  · rw [heq, hstep]
    simp
  · unfold buildResult
    rw [heq, hstep]

theorem build_failure_named_witness :
    runPlan failF [0, 1] (initCache failF) [] =
      .failed (FactoryError.FacetBuildFailed "bad" ⟨"boom"⟩) [0, 1] ∧
    buildResult failF [0, 1] =
      some (Except.error (FactoryError.FacetBuildFailed "bad" ⟨"boom"⟩)) := by
  have h := build_failure_named failF [1] [0, 1] [0] [] 1 ⟨"boom"⟩ rfl rfl
    (by
      intro j hj h vs
      fin_cases hj
      exact ⟨1, rfl⟩)
    (by decide)
    (fun vs => rfl)
  exact h

/-- Claim C8: a registered build invokes only units required by the
requested container or transitively reachable from them (nothing
else), and a successful build invokes every required unit and all of
its transitive dependencies. -/
theorem needed_exactly {V : Type} (f : List (UnitDesc V)) (roots plan : List Nat)
    (hreg : register f roots = some plan) :
    (∀ i ∈ outTrace (runPlan f plan (initCache f) []),
      i ∈ roots ∨ ∃ r ∈ roots, Reaches f r i) ∧
    (∀ cache trace, runPlan f plan (initCache f) [] = .ok cache trace →
      (∀ r ∈ roots, r ∈ trace) ∧ (∀ r ∈ roots, ∀ k, Reaches f r k → k ∈ trace)) := by
  obtain ⟨htopo, _, hmem, _, hroots, _⟩ := register_some hreg
  constructor
  · intro i hi
    rcases outTrace_runPlan f plan (initCache f) [] i hi with h | h
    · cases h
    · have hin : i ∈ neededSet f roots := (hmem i h).1
      rw [neededSet] at hin
      refine closureN_invariant
        (fun x => x ∈ roots ∨ ∃ r ∈ roots, Reaches f r x) ?_ _ roots ?_ i hin
      · intro a ha j hj
        rcases ha with ha | ⟨r, hrr, hra⟩
        · exact Or.inr ⟨a, ha, Reaches.single hj⟩
        · exact Or.inr ⟨r, hrr, hra.snoc hj⟩
      · intro x hx
        exact Or.inl hx
  · intro cache trace hrun
    have htr : trace = plan := by
      simpa using runPlan_ok_trace f plan (initCache f) [] cache trace hrun
    subst htr
    refine ⟨fun r hr => hroots r hr, ?_⟩
    intro r hr k hrk
    exact (reaches_rank htopo hrk (hroots r hr)).1

theorem needed_exactly_witness :
    outTrace (runPlan lmhF [0] (initCache lmhF) []) = [0] ∧
    (0 ∈ ([0] : List Nat) ∨ ∃ r ∈ ([0] : List Nat), Reaches lmhF r 0) := by
  refine ⟨rfl, ?_⟩
  exact (needed_exactly lmhF [0] [0] rfl).1 0 (by decide)
